import Mathlib

/-!
Verification of the riscv-emu repository: a shallow embedding of the
RangeSet allocator (src/rangeset/src/lib.rs), the permission-tagged
Memory (src/rv/src/emulator.rs), the RV32I instruction decoders
(src/rv/src/instructions.rs), the fetch-decode-execute loop body
(Emulator::run in src/rv/src/emulator.rs), the loader's segment-end
computation (Emulator::load) and the brk syscall of the dispatcher
(src/rv/src/main.rs).

Machine integers are modelled as Nat with explicit `% 2^32` where the
source uses wrapping u32 arithmetic.  A non-wrapping Rust `+` on u32
(which is an overflow panic in a checked build) is modelled as a
checked addition `addU32` returning `Option Nat`; an overflow maps to
the `StepOut.aborted` outcome.  Fallible operations return `Except`.
-/

/-! ## RangeSet (src/rangeset/src/lib.rs)

A set of disjoint half-open `[start, end)` intervals kept in a flat
list.  `remove` finds the first stored interval that contains the
range to delete and splits it; `remove_first_fit` scans the intervals
in storage order for the first one large enough.

The Rust code stores `u32`; we use `Nat`.  For any state satisfying
the well-formedness invariant `wfRS` (each interval nonempty, the
list sorted and disjoint) every arithmetic operation performed by the
source (`range.1 - range.0`, `start + size`) stays below 2^32 when
the endpoints do, so the Nat model computes exactly the u32 values.
-/

inductive RError where
  | outOfBounds
  | noFit
deriving Repr, DecidableEq

namespace RangeSet

/-- `RangeSet::new(start, end)`: the single interval `[start, end)`. -/
def new (s e : Nat) : List (Nat × Nat) := [(s, e)]

/-- The body of `RangeSet::remove`: `iter_mut().find` locates the first
interval `(a, b)` with `s >= a && s < b && e <= b` and the found
interval is replaced in place by the leftover pieces. -/
def removeGo (s e : Nat) : List (Nat × Nat) → Except RError (List (Nat × Nat))
  | [] => .error .outOfBounds
  | r :: rest =>
    if r.1 ≤ s ∧ s < r.2 ∧ e ≤ r.2 then
      if s = r.1 ∧ e = r.2 then
        .ok rest
      else if s = r.1 then
        .ok ((e, r.2) :: rest)
      else if e = r.2 then
        .ok ((r.1, s) :: rest)
      else
        .ok ((r.1, s) :: (e, r.2) :: rest)
    else
      match removeGo s e rest with
      | .ok rest' => .ok (r :: rest')
      | .error er => .error er

/-- `RangeSet::remove(start, end)`.  An `.error` result models the Rust
`Err` return, which happens before any mutation: the set is unchanged. -/
def remove (rs : List (Nat × Nat)) (s e : Nat) : Except RError (List (Nat × Nat)) :=
  removeGo s e rs

/-- `RangeSet::remove_first_fit(size)`: find the first interval whose
length is at least `size`, remove `[start, start+size)` from the set and
return the pair together with the new set. -/
def remove_first_fit (rs : List (Nat × Nat)) (size : Nat) :
    Except RError ((Nat × Nat) × List (Nat × Nat)) :=
  match rs.find? (fun r => decide (size ≤ r.2 - r.1)) with
  | none => .error .noFit
  | some r =>
    match remove rs r.1 (r.1 + size) with
    | .ok rs' => .ok ((r.1, r.1 + size), rs')
    | .error er => .error er

end RangeSet

/-- Well-formedness of a range set: every stored interval is nonempty
and the intervals are pairwise disjoint in strictly ascending order
(the end of an earlier interval is at most the start of a later one). -/
def wfRS (rs : List (Nat × Nat)) : Prop :=
  List.Pairwise (fun p q => p.2 ≤ q.1) rs ∧ ∀ r ∈ rs, r.1 < r.2

instance : DecidablePred wfRS := fun _ =>
  inferInstanceAs (Decidable (_ ∧ _))

/-- `x` is covered by one of the stored intervals. -/
def inSet (rs : List (Nat × Nat)) (x : Nat) : Prop :=
  ∃ r ∈ rs, r.1 ≤ x ∧ x < r.2

/-! ## Memory (src/rv/src/emulator.rs)

A byte buffer, a parallel permissions buffer and the free set.  Bytes
and permission bytes are `Nat` (the source uses `u8`).  Lists model the
boxed slices; out-of-list reads use `getD _ 0`, matching the zeroed
allocation.  `self.perms[addr]` in `check_permission` is only reached
for addresses that passed `check_bounds`, and every real `Memory` has
`perms.length = mem.length`, so `getD` never papers over a panic. -/

def PERM_NONE : Nat := 0
def PERM_READ : Nat := 1
def PERM_WRITE : Nat := 2
def PERM_EXEC : Nat := 4
def PERM_RAW : Nat := 8

inductive MemoryError where
  | badPermissions (s e access perms : Nat)
  | outOfBounds (s e : Nat)
  | outOfMemory (err : RError)
deriving Repr, DecidableEq

structure Memory where
  mem : List Nat
  perms : List Nat
  free : List (Nat × Nat)
deriving Repr, DecidableEq

namespace Memory

/-- `Memory::check_bounds(range)`: fails when
`range.start >= self.mem.len() || range.end >= self.mem.len()`. -/
def check_bounds (m : Memory) (s e : Nat) : Except MemoryError Unit :=
  if m.mem.length ≤ s ∨ m.mem.length ≤ e then
    .error (.outOfBounds s e)
  else
    .ok ()

/-- The loop of `Memory::check_permission` over `n` addresses starting
at `i`; `s` and `e` are the whole range reported on failure.  A byte
fails when `(required & byte) == 0`.  The error reports the first
failing byte's permissions. -/
def check_permission_go (perms : List Nat) (required s e : Nat) : Nat → Nat → Except MemoryError Unit
  | _, 0 => .ok ()
  | i, n + 1 =>
    let byte := perms.getD i 0
    if required &&& byte = 0 then
      .error (.badPermissions s e required byte)
    else
      check_permission_go perms required s e (i + 1) n

/-- `Memory::check_permission(range, perm)`. -/
def check_permission (m : Memory) (s e required : Nat) : Except MemoryError Unit :=
  check_permission_go m.perms required s e s (e - s)

/-- Slice `self.mem[s..e]`.  (Rust panics when `s > e`; after
`check_bounds` both are `< len`, and all uses have `s ≤ e`.) -/
def slice (l : List Nat) (s e : Nat) : List Nat :=
  (l.drop s).take (e - s)

/-- `Memory::read(range, perm)`: bounds check, permission check unless
`perm` is `PERM_NONE`, then the borrowed view of the bytes. -/
def read (m : Memory) (s e required : Nat) : Except MemoryError (List Nat) :=
  match m.check_bounds s e with
  | .error er => .error er
  | .ok _ =>
    match (if required ≠ 0 then m.check_permission s e required else .ok ()) with
    | .error er => .error er
    | .ok _ => .ok (slice m.mem s e)

/-- The RAW-fixup loop of `Memory::write`: for each byte of the range
with `PERM_RAW` set, clear `RAW` (`perm &= !PERM_RAW`, i.e. `& 0xF7`
on u8) and set `PERM_READ`. -/
def raw_fix (perms : List Nat) : Nat → Nat → List Nat
  | _, 0 => perms
  | i, n + 1 =>
    let p := perms.getD i 0
    let perms' := if p &&& PERM_RAW ≠ 0 then perms.set i ((p &&& 0xF7) ||| PERM_READ) else perms
    raw_fix perms' (i + 1) n

/-- `self.mem[addr..addr+len].copy_from_slice(data)`. -/
def copy_bytes (mem : List Nat) : Nat → List Nat → List Nat
  | _, [] => mem
  | i, b :: bs => copy_bytes (mem.set i b) (i + 1) bs

/-- `Memory::write(addr, perm, data)`: bounds check on
`addr..addr+data.len()`, permission check unless `perm == 0`, RAW→R
fixup over the range, then copy the data.  (The u32 sum
`addr + data.len()` cannot overflow on any successful call: success
needs it below the memory size, itself below 2^32.) -/
def write (m : Memory) (addr required : Nat) (data : List Nat) : Except MemoryError Memory :=
  let e := addr + data.length
  match m.check_bounds addr e with
  | .error er => .error er
  | .ok _ =>
    match (if required ≠ 0 then m.check_permission addr e required else .ok ()) with
    | .error er => .error er
    | .ok _ =>
      .ok { m with
            perms := raw_fix m.perms addr (e - addr),
            mem := copy_bytes m.mem addr data }

/-- `u32::from_le_bytes` / `u16::from_le_bytes` / a single byte. -/
def leBytes : List Nat → Nat
  | [] => 0
  | b :: bs => b % 256 + 256 * leBytes bs

/-- `b as i8 as i32 as u32`: sign-extend a byte to 32 bits. -/
def sext8 (v : Nat) : Nat :=
  if v % 256 < 128 then v % 256 else v % 256 + 0xFFFFFF00

/-- `h as i16 as i32 as u32`: sign-extend a half-word to 32 bits. -/
def sext16 (v : Nat) : Nat :=
  if v % 65536 < 32768 then v % 65536 else v % 65536 + 0xFFFF0000

def read_u8 (m : Memory) (addr required : Nat) : Except MemoryError Nat :=
  match m.read addr (addr + 1) required with
  | .error er => .error er
  | .ok bs => .ok (leBytes bs)

def read_u16 (m : Memory) (addr required : Nat) : Except MemoryError Nat :=
  match m.read addr (addr + 2) required with
  | .error er => .error er
  | .ok bs => .ok (leBytes bs)

def read_u32 (m : Memory) (addr required : Nat) : Except MemoryError Nat :=
  match m.read addr (addr + 4) required with
  | .error er => .error er
  | .ok bs => .ok (leBytes bs)

def read_i8 (m : Memory) (addr required : Nat) : Except MemoryError Nat :=
  match m.read addr (addr + 1) required with
  | .error er => .error er
  | .ok bs => .ok (sext8 (leBytes bs))

def read_i16 (m : Memory) (addr required : Nat) : Except MemoryError Nat :=
  match m.read addr (addr + 2) required with
  | .error er => .error er
  | .ok bs => .ok (sext16 (leBytes bs))

def write_u8 (m : Memory) (addr required v : Nat) : Except MemoryError Memory :=
  m.write addr required [v % 256]

def write_u16 (m : Memory) (addr required v : Nat) : Except MemoryError Memory :=
  m.write addr required [v % 256, v / 256 % 256]

def write_u32 (m : Memory) (addr required v : Nat) : Except MemoryError Memory :=
  m.write addr required [v % 256, v / 256 % 256, v / 65536 % 256, v / 16777216 % 256]

end Memory

/-! ## Instruction decoders (src/rv/src/instructions.rs)

Pure projections from a 32-bit word.  `asr32` models
`((x as i32) >> k) as u32` (arithmetic shift of the two's-complement
reinterpretation); `shl32` models the truncating u32 `<<`.  Register
fields are plain `Nat` (the source wraps a `u8` in `Reg`). -/

/-- Truncating u32 left shift. -/
def shl32 (x n : Nat) : Nat := (x <<< n) % 4294967296

/-- `((x as i32) >> k) as u32` for `x < 2^32`, `k ≤ 32`: logical shift
for non-negative values, otherwise the vacated high bits fill with 1. -/
def asr32 (x k : Nat) : Nat :=
  if x < 2147483648 then x >>> k else (x >>> k) + (4294967296 - 2 ^ (32 - k))

/-- `x as i32` as a mathematical integer. -/
def i32ofU32 (x : Nat) : Int :=
  if x < 2147483648 then (x : Int) else (x : Int) - 4294967296

/-- The `rd`/low-field extraction `((instr & ((1 << 12) - 1)) >> 7)`
shared by all the decoders. -/
def rdField (instr : Nat) : Nat := (instr &&& 0xFFF) >>> 7

structure UType where
  imm : Nat
  rd : Nat
deriving Repr, DecidableEq

/-- `UType::parse`: `imm = instr & !((1 << 12) - 1)` (keep bits 31:12),
`rd = instr[11:7]`. -/
def UType.parse (instr : Nat) : UType :=
  { imm := instr &&& 0xFFFFF000,
    rd := (instr &&& 0xFFF) >>> 7 }

structure JType where
  imm : Nat
  rd : Nat
deriving Repr, DecidableEq

/-- `JType::parse`: `instr[31]` into `imm[20]`, `instr[30:21]` into
`imm[10:1]`, `instr[20]` into `imm[11]`, `instr[19:12]` into
`imm[19:12]`.  Note the source has no sign extension: no bit above
`imm[20]` is ever set. -/
def JType.parse (instr : Nat) : JType :=
  { imm :=
      shl32 ((instr &&& 0x80000000) >>> 31) 20 |||
      shl32 ((instr &&& 0x7FFFFFFF) >>> 21) 1 |||
      shl32 ((instr &&& 0x1FFFFF) >>> 20) 11 |||
      shl32 ((instr &&& 0xFFFFF) >>> 12) 12,
    rd := (instr &&& 0xFFF) >>> 7 }

structure IType where
  imm : Nat
  rs1 : Nat
  funct3 : Nat
  rd : Nat
deriving Repr, DecidableEq

/-- `IType::parse`: `imm = ((instr as i32) >> 20) as u32` (sign-extended
12-bit immediate), `rs1 = instr[19:15]`, `funct3 = instr[14:12]`,
`rd = instr[11:7]`. -/
def IType.parse (instr : Nat) : IType :=
  { imm := asr32 instr 20,
    rs1 := (instr &&& 0xFFFFF) >>> 15,
    funct3 := (instr &&& 0x7FFF) >>> 12,
    rd := (instr &&& 0xFFF) >>> 7 }

structure BType where
  imm : Nat
  rs2 : Nat
  rs1 : Nat
  funct3 : Nat
deriving Repr, DecidableEq

/-- `BType::parse`: `instr[31]` sign-extended into `imm[31:12]`,
`instr[30:25]` into `imm[10:5]`, `instr[11:8]` into `imm[4:1]`,
`instr[7]` into `imm[11]`. -/
def BType.parse (instr : Nat) : BType :=
  { imm :=
      shl32 (asr32 instr 31) 12 |||
      shl32 ((instr &&& 0x7FFFFFFF) >>> 25) 5 |||
      shl32 ((instr &&& 0xFFF) >>> 8) 1 |||
      shl32 ((instr &&& 0xFF) >>> 7) 11,
    rs2 := (instr &&& 0x1FFFFFF) >>> 20,
    rs1 := (instr &&& 0xFFFFF) >>> 15,
    funct3 := (instr &&& 0x7FFF) >>> 12 }

structure SType where
  imm : Nat
  rs2 : Nat
  rs1 : Nat
  funct3 : Nat
deriving Repr, DecidableEq

/-- `SType::parse`: `instr[31:25]` sign-extended into `imm[31:5]`,
`instr[11:7]` into `imm[4:0]`. -/
def SType.parse (instr : Nat) : SType :=
  { imm := shl32 (asr32 instr 25) 5 ||| ((instr &&& 0xFFF) >>> 7),
    rs2 := (instr &&& 0x1FFFFFF) >>> 20,
    rs1 := (instr &&& 0xFFFFF) >>> 15,
    funct3 := (instr &&& 0x7FFF) >>> 12 }

structure RType where
  funct7 : Nat
  rs2 : Nat
  rs1 : Nat
  funct3 : Nat
  rd : Nat
deriving Repr, DecidableEq

/-- `RType::parse`: pure field extraction. -/
def RType.parse (instr : Nat) : RType :=
  { funct7 := instr >>> 25,
    rs2 := (instr &&& 0x1FFFFFF) >>> 20,
    rs1 := (instr &&& 0xFFFFF) >>> 15,
    funct3 := (instr &&& 0x7FFF) >>> 12,
    rd := (instr &&& 0xFFF) >>> 7 }

/-! ## Emulator core (src/rv/src/emulator.rs)

`EmuState` is `{pc, regs, mem}`; the register file is the 31-element
array for `x1..x31`.  `executeInstr` is the body of the labelled loop
in `Emulator::run` for one already-fetched instruction word: it either
continues running with an updated state (`running`, pc already
advanced or redirected), leaves the loop with a tagged exit reason and
`pc` still at the current instruction (`exited`), or hits an overflow
in one of the non-wrapping u32 `+` operations of the source
(`aborted`, a panic in a checked build). -/

/-- Non-wrapping u32 addition: `a + b` on `u32` values, overflow is a
program abort. -/
def addU32 (a b : Nat) : Option Nat :=
  if a + b < 4294967296 then some (a + b) else none

structure EmuState where
  pc : Nat
  regs : List Nat
  mem : Memory
deriving Repr, DecidableEq

/-- `Emulator::read_reg`: `x0` reads as zero, `xN` reads `regs[N-1]`. -/
def read_reg (regs : List Nat) (r : Nat) : Nat :=
  if r ≠ 0 then regs.getD (r - 1) 0 else 0

/-- `Emulator::write_reg`: writes to `x0` are discarded, `xN` writes
`regs[N-1]`. -/
def write_reg (regs : List Nat) (r v : Nat) : List Nat :=
  if r ≠ 0 then regs.set (r - 1) v else regs

inductive EmulatorExit where
  | syscall
  | ebreak
  | invalidInstruction (instr : Nat)
  | invalidMemoryAccess (err : MemoryError)
deriving Repr, DecidableEq

inductive StepOut where
  | running (st : EmuState)
  | exited (st : EmuState) (e : EmulatorExit)
  | aborted
deriving Repr, DecidableEq

/-- End of a non-jumping arm: `pc = pc + 4` (non-wrapping u32 `+` in
the source). -/
def fallthrough (st : EmuState) (regs : List Nat) (mem : Memory) : StepOut :=
  match addU32 st.pc 4 with
  | some p => .running ⟨p, regs, mem⟩
  | none => .aborted

/-- The LUI arm of `Emulator::run`. -/
def execLUI (st : EmuState) (instr : Nat) : StepOut :=
  let typ := UType.parse instr
  fallthrough st (write_reg st.regs typ.rd typ.imm) st.mem

/-- The AUIPC arm: `pc + typ.imm` is a non-wrapping u32 `+`. -/
def execAUIPC (st : EmuState) (instr : Nat) : StepOut :=
  let typ := UType.parse instr
  match addU32 st.pc typ.imm with
  | none => .aborted
  | some v => fallthrough st (write_reg st.regs typ.rd v) st.mem

/-- The JAL arm: the jump target wraps, the link value `old_pc + 4`
does not. -/
def execJAL (st : EmuState) (instr : Nat) : StepOut :=
  let typ := JType.parse instr
  let pcJ := (st.pc + typ.imm) % 4294967296
  match addU32 st.pc 4 with
  | none => .aborted
  | some link => .running ⟨pcJ, write_reg st.regs typ.rd link, st.mem⟩

/-- The JALR arm. -/
def execJALR (st : EmuState) (instr : Nat) : StepOut :=
  let typ := IType.parse instr
  if typ.funct3 ≠ 0 then
    .exited ⟨st.pc, st.regs, st.mem⟩ (.invalidInstruction instr)
  else
    let pcJ := (read_reg st.regs typ.rs1 + typ.imm) % 4294967296
    match addU32 st.pc 4 with
    | none => .aborted
    | some link => .running ⟨pcJ, write_reg st.regs typ.rd link, st.mem⟩

/-- The BRANCH arm: BEQ/BNE/BLT/BGE/BLTU/BGEU per `funct3`; a taken
branch wraps `pc + imm`. -/
def execBRANCH (st : EmuState) (instr : Nat) : StepOut :=
  let typ := BType.parse instr
  let taken :=
    if typ.funct3 = 0b000 then
      some (decide (read_reg st.regs typ.rs1 = read_reg st.regs typ.rs2))
    else if typ.funct3 = 0b001 then
      some (decide (read_reg st.regs typ.rs1 ≠ read_reg st.regs typ.rs2))
    else if typ.funct3 = 0b100 then
      some (decide (i32ofU32 (read_reg st.regs typ.rs1) < i32ofU32 (read_reg st.regs typ.rs2)))
    else if typ.funct3 = 0b101 then
      some (decide (i32ofU32 (read_reg st.regs typ.rs1) ≥ i32ofU32 (read_reg st.regs typ.rs2)))
    else if typ.funct3 = 0b110 then
      some (decide (read_reg st.regs typ.rs1 < read_reg st.regs typ.rs2))
    else if typ.funct3 = 0b111 then
      some (decide (read_reg st.regs typ.rs1 ≥ read_reg st.regs typ.rs2))
    else none
  match taken with
  | none => .exited ⟨st.pc, st.regs, st.mem⟩ (.invalidInstruction instr)
  | some true => .running ⟨(st.pc + typ.imm) % 4294967296, st.regs, st.mem⟩
  | some false => fallthrough st st.regs st.mem

/-- The LOAD arm: LB/LH/LW/LBU/LHU; the effective address wraps.  (The
final `data as i32 as u32` of the source is the identity on the u32
values the reads produce.) -/
def execLOAD (st : EmuState) (instr : Nat) : StepOut :=
  let typ := IType.parse instr
  let addr := (read_reg st.regs typ.rs1 + typ.imm) % 4294967296
  let data :=
    if typ.funct3 = 0b000 then some (st.mem.read_i8 addr PERM_READ)
    else if typ.funct3 = 0b001 then some (st.mem.read_i16 addr PERM_READ)
    else if typ.funct3 = 0b010 then some (st.mem.read_u32 addr PERM_READ)
    else if typ.funct3 = 0b100 then some (st.mem.read_u8 addr PERM_READ)
    else if typ.funct3 = 0b101 then some (st.mem.read_u16 addr PERM_READ)
    else none
  match data with
  | none => .exited ⟨st.pc, st.regs, st.mem⟩ (.invalidInstruction instr)
  | some (.error er) => .exited ⟨st.pc, st.regs, st.mem⟩ (.invalidMemoryAccess er)
  | some (.ok d) => fallthrough st (write_reg st.regs typ.rd d) st.mem

/-- The STORE arm: SB/SH/SW.  The effective address `rs1 + imm` is the
non-wrapping u32 `+` of the source (emulator.rs:460). -/
def execSTORE (st : EmuState) (instr : Nat) : StepOut :=
  let typ := SType.parse instr
  match addU32 (read_reg st.regs typ.rs1) typ.imm with
  | none => .aborted
  | some addr =>
    let data := read_reg st.regs typ.rs2
    let res :=
      if typ.funct3 = 0b000 then some (st.mem.write_u8 addr PERM_WRITE (data % 256))
      else if typ.funct3 = 0b001 then some (st.mem.write_u16 addr PERM_WRITE (data % 65536))
      else if typ.funct3 = 0b010 then some (st.mem.write_u32 addr PERM_WRITE (data % 4294967296))
      else none
    match res with
    | none => .exited ⟨st.pc, st.regs, st.mem⟩ (.invalidInstruction instr)
    | some (.error er) => .exited ⟨st.pc, st.regs, st.mem⟩ (.invalidMemoryAccess er)
    | some (.ok m2) => fallthrough st st.regs m2

/-- The OP-IMM arm: ADDI/SLTI/SLTIU/XORI/ORI/ANDI/SLLI/SRLI/SRAI. -/
def execOPIMM (st : EmuState) (instr : Nat) : StepOut :=
  let typ := IType.parse instr
  let arithmetic := (typ.imm &&& 0xFFF) >>> 5
  let shamt := typ.imm &&& 0b11111
  if typ.funct3 = 0b000 then
    fallthrough st
      (write_reg st.regs typ.rd ((read_reg st.regs typ.rs1 + typ.imm) % 4294967296)) st.mem
  else if typ.funct3 = 0b010 then
    fallthrough st
      (write_reg st.regs typ.rd
        (if i32ofU32 (read_reg st.regs typ.rs1) < i32ofU32 typ.imm then 1 else 0)) st.mem
  else if typ.funct3 = 0b011 then
    fallthrough st
      (write_reg st.regs typ.rd (if read_reg st.regs typ.rs1 < typ.imm then 1 else 0)) st.mem
  else if typ.funct3 = 0b100 then
    fallthrough st (write_reg st.regs typ.rd (read_reg st.regs typ.rs1 ^^^ typ.imm)) st.mem
  else if typ.funct3 = 0b110 then
    fallthrough st (write_reg st.regs typ.rd (read_reg st.regs typ.rs1 ||| typ.imm)) st.mem
  else if typ.funct3 = 0b111 then
    fallthrough st (write_reg st.regs typ.rd (read_reg st.regs typ.rs1 &&& typ.imm)) st.mem
  else if typ.funct3 = 0b001 then
    if arithmetic ≠ 0 then
      .exited ⟨st.pc, st.regs, st.mem⟩ (.invalidInstruction instr)
    else
      fallthrough st (write_reg st.regs typ.rd (shl32 (read_reg st.regs typ.rs1) shamt)) st.mem
  else if typ.funct3 = 0b101 then
    if arithmetic = 0 then
      fallthrough st (write_reg st.regs typ.rd (read_reg st.regs typ.rs1 >>> shamt)) st.mem
    else if arithmetic = 0b0100000 then
      fallthrough st (write_reg st.regs typ.rd (asr32 (read_reg st.regs typ.rs1) shamt)) st.mem
    else
      .exited ⟨st.pc, st.regs, st.mem⟩ (.invalidInstruction instr)
  else
    .exited ⟨st.pc, st.regs, st.mem⟩ (.invalidInstruction instr)

/-- The OP arm: ADD/SUB/SLL/SLT/SLTU/XOR/SRL/SRA/OR/AND per
`(funct3, funct7)`. -/
def execOP (st : EmuState) (instr : Nat) : StepOut :=
  let typ := RType.parse instr
  let rs1 := read_reg st.regs typ.rs1
  let rs2 := read_reg st.regs typ.rs2
  let res :=
    if typ.funct3 = 0b000 ∧ typ.funct7 = 0 then some ((rs1 + rs2) % 4294967296)
    else if typ.funct3 = 0b000 ∧ typ.funct7 = 0b0100000 then
      some ((rs1 + (4294967296 - rs2 % 4294967296)) % 4294967296)
    else if typ.funct3 = 0b001 ∧ typ.funct7 = 0 then some (shl32 rs1 (rs2 &&& 0b11111))
    else if typ.funct3 = 0b010 ∧ typ.funct7 = 0 then
      some (if i32ofU32 rs1 < i32ofU32 rs2 then 1 else 0)
    else if typ.funct3 = 0b011 ∧ typ.funct7 = 0 then some (if rs1 < rs2 then 1 else 0)
    else if typ.funct3 = 0b100 ∧ typ.funct7 = 0 then some (rs1 ^^^ rs2)
    else if typ.funct3 = 0b101 ∧ typ.funct7 = 0 then some (rs1 >>> (rs2 &&& 0b11111))
    else if typ.funct3 = 0b101 ∧ typ.funct7 = 0b0100000 then some (asr32 rs1 (rs2 &&& 0b11111))
    else if typ.funct3 = 0b110 ∧ typ.funct7 = 0 then some (rs1 ||| rs2)
    else if typ.funct3 = 0b111 ∧ typ.funct7 = 0 then some (rs1 &&& rs2)
    else none
  match res with
  | none => .exited ⟨st.pc, st.regs, st.mem⟩ (.invalidInstruction instr)
  | some v => fallthrough st (write_reg st.regs typ.rd v) st.mem

/-- The MISC-MEM arm: FENCE is a no-op. -/
def execMISCMEM (st : EmuState) (instr : Nat) : StepOut :=
  let typ := IType.parse instr
  if typ.funct3 ≠ 0 then
    .exited ⟨st.pc, st.regs, st.mem⟩ (.invalidInstruction instr)
  else
    fallthrough st st.regs st.mem

/-- The SYSTEM arm: ECALL and EBREAK. -/
def execSYSTEM (st : EmuState) (instr : Nat) : StepOut :=
  let typ := IType.parse instr
  if typ.rs1 ≠ 0 ∨ typ.rd ≠ 0 ∨ typ.funct3 ≠ 0 then
    .exited ⟨st.pc, st.regs, st.mem⟩ (.invalidInstruction instr)
  else if typ.imm = 0 then
    .exited ⟨st.pc, st.regs, st.mem⟩ .syscall
  else if typ.imm = 1 then
    .exited ⟨st.pc, st.regs, st.mem⟩ .ebreak
  else
    .exited ⟨st.pc, st.regs, st.mem⟩ (.invalidInstruction instr)

/-- One iteration of the `'next_instruction` loop of `Emulator::run`,
after the 4-byte fetch produced `instr`: dispatch on the low 7 bits.
Keeps the source's order of effects; `wrapping_add`/`wrapping_sub`/
`wrapping_add_signed` are `% 2^32`, a plain u32 `+` or `-` is checked.
(The `pc == 0x100ec` debug print computes `a2 - a0` in u32, which
aborts a checked build when `a2 < a0`.) -/
def executeInstr (st : EmuState) (instr : Nat) : StepOut :=
  if st.pc = 0x100ec ∧ read_reg st.regs 12 < read_reg st.regs 10 then
    .aborted
  else
    let opcode := instr &&& 0x7F
    if opcode = 0b0110111 then execLUI st instr
    else if opcode = 0b0010111 then execAUIPC st instr
    else if opcode = 0b1101111 then execJAL st instr
    else if opcode = 0b1100111 then execJALR st instr
    else if opcode = 0b1100011 then execBRANCH st instr
    else if opcode = 0b0000011 then execLOAD st instr
    else if opcode = 0b0100011 then execSTORE st instr
    else if opcode = 0b0010011 then execOPIMM st instr
    else if opcode = 0b0110011 then execOP st instr
    else if opcode = 0b0001111 then execMISCMEM st instr
    else if opcode = 0b1110011 then execSYSTEM st instr
    else .exited ⟨st.pc, st.regs, st.mem⟩ (.invalidInstruction instr)

/-- The register file of a step outcome, compared with the registers
before the step: unchanged on `running` and `exited`; an `aborted`
step tears the process down without touching them. -/
def regsUnchanged (o : StepOut) (regs : List Nat) : Prop :=
  match o with
  | .running s => s.regs = regs
  | .exited s _ => s.regs = regs
  | .aborted => True

/-! ## Loader and syscall dispatcher -/

/-- The segment-end computation of `Emulator::load`:
`mem_end = start + segment.size` then `(mem_end + 4) & !3`
(`!3 = 0xFFFFFFFC` on u32).  The argument is `load_addr + mem_size`. -/
def memEnd (x : Nat) : Nat := (x + 4) &&& 0xFFFFFFFC

/-- The `brk` (214) arm of the syscall dispatcher in `main`, acting on
the host-side `current_brk` variable: returns
`(value placed in a0, new current_brk)`. -/
def brkStep (heap_end current_brk new_brk : Nat) : Nat × Nat :=
  let brk' :=
    if new_brk = 0 then current_brk
    else if new_brk > heap_end then current_brk
    else new_brk
  (brk', brk')

/-! ## Theorems -/

/-- Clearing the two low bits with `& 0xFFFFFFFC` rounds a u32 value
down to a multiple of 4. -/
theorem land_mask_fffffffc (y : Nat) (hy : y < 4294967296) :
    y &&& 0xFFFFFFFC = y / 4 * 4 := by
  have h1 : y / 4 * 4 = (y >>> 2) <<< 2 := by
    simp [Nat.shiftRight_eq_div_pow, Nat.shiftLeft_eq]
  have h2 : (0xFFFFFFFC : Nat) = (2 ^ 30 - 1) <<< 2 := by norm_num [Nat.shiftLeft_eq]
  apply Nat.eq_of_testBit_eq
  intro i
  rw [Nat.testBit_land, h1, h2, Nat.testBit_shiftLeft, Nat.testBit_shiftLeft,
    Nat.testBit_shiftRight, Nat.testBit_two_pow_sub_one]
  by_cases hi2 : 2 ≤ i
  · have he : 2 + (i - 2) = i := by omega
    rw [he]
    by_cases hi32 : i < 32
    · simp only [hi2, hi32, decide_eq_true_eq, decide_True, Bool.true_and, Bool.and_true]
      have : i - 2 < 30 := by omega
      simp [this]
    · have : y.testBit i = false := by
        apply Nat.testBit_lt_two_pow
        calc y < 4294967296 := hy
        _ = 2 ^ 32 := by norm_num
        _ ≤ 2 ^ i := Nat.pow_le_pow_right (by norm_num) (by omega)
      simp [this, hi2]
  · simp [hi2]

/-- A masked-and-shifted field is bounded by the shifted mask. -/
theorem field_lt (x m k b : Nat) (h : m >>> k < b) : (x &&& m) >>> k < b := by
  apply Nat.lt_of_le_of_lt _ h
  rw [Nat.shiftRight_eq_div_pow, Nat.shiftRight_eq_div_pow]
  exact Nat.div_le_div_right Nat.and_le_right

/-- C1: the claim says `JType::parse` sign-extends the 21-bit jump
immediate, so that `instr[31] = 1` forces bits 31:21 of the immediate
to be all 1.  The code has no sign extension (`instr[31]` lands in
`imm[20]` only, cf. the B/S parsers which do shift the arithmetic
`instr as i32 >> k`), so for `instr = 0x80000000` the immediate is
`0x00100000` with bits 31:21 all zero instead of `0xFFF00000`.  This
contradicts the RISC-V encoding the code says it follows: code bug. -/
theorem C1_jtype_imm_not_sign_extended :
    Nat.testBit 0x80000000 31 = true ∧
    (JType.parse 0x80000000).imm = 0x00100000 ∧
    (JType.parse 0x80000000).imm >>> 21 = 0 ∧
    (JType.parse 0x80000000).imm >>> 21 ≠ 0x7FF := by
  refine ⟨by decide, by decide, by decide, by decide⟩

/-- C2: the claim says the store effective address is `rs1 + imm` with
wrapping (mod 2^32) addition for all values.  The source computes it
with the non-wrapping u32 `+` (src/rv/src/emulator.rs:460), which the
spec itself flags as a bug (§9(ii): "all RV32I effective-address
arithmetic should wrap").  Executing `sw x2, 1(x1)` with
`x1 = 0xFFFFFFFF` aborts on the overflowing add instead of storing at
the wrapped address `(0xFFFFFFFF + 1) % 2^32 = 0`: code bug. -/
theorem C2_store_addr_overflow_aborts :
    executeInstr ⟨0, 0xFFFFFFFF :: List.replicate 30 0, ⟨[0, 0, 0, 0], [2, 2, 2, 2], []⟩⟩
      0x0020A0A3 = .aborted ∧
    (0xFFFFFFFF + 1) % 4294967296 = 0 := by
  refine ⟨by decide, by decide⟩

/-- C5 counterexample: the claim says `mem_end` is the smallest
multiple of 4 that is ≥ `load_addr + mem_size`, hence equals the sum
when it is already a multiple of 4.  For sum 8 the code's
`(mem_end + 4) & !3` gives 12, not 8. -/
theorem C5_memEnd_counterexample : memEnd 8 = 12 ∧ memEnd 8 ≠ 8 := by
  refine ⟨by decide, by decide⟩

/-- C5 amended: for every LOAD segment, `mem_end` is the smallest
multiple of 4 STRICTLY greater than `load_addr + mem_size` (so the sum
plus 4 when the sum is already a multiple of 4); the hypothesis keeps
the u32 sum `mem_end + 4` from overflowing, below which the code would
abort. -/
theorem C5_memEnd_amended (x : Nat) (h : x + 4 < 4294967296) :
    memEnd x % 4 = 0 ∧ x < memEnd x ∧ memEnd x = 4 * (x / 4) + 4 ∧
    ∀ y, y % 4 = 0 → x < y → memEnd x ≤ y := by
  have hm : memEnd x = (x + 4) / 4 * 4 := land_mask_fffffffc (x + 4) h
  have h4 : (x + 4) / 4 = x / 4 + 1 := by omega
  refine ⟨?_, ?_, ?_, ?_⟩
  · omega
  · have := Nat.div_add_mod x 4
    omega
  · omega
  · intro y hy hxy
    have := Nat.div_add_mod x 4
    have := Nat.div_add_mod y 4
    omega

/-- C5 amended, witnessed at `load_addr + mem_size = 10`. -/
theorem C5_memEnd_witness :
    memEnd 10 % 4 = 0 ∧ 10 < memEnd 10 ∧ memEnd 10 = 4 * (10 / 4) + 4 ∧
    ∀ y, y % 4 = 0 → 10 < y → memEnd 10 ≤ y :=
  C5_memEnd_amended 10 (by decide)

/-- C8: the `brk` (214) arm: `brk(0)` returns `current_brk` unchanged;
`brk(new)` with `new > heap_end` leaves `current_brk` unchanged and
returns the prior value; otherwise `current_brk` becomes `new` and is
returned.  `current_brk` is initialized to `heap_start`
(src/rv/src/main.rs:69), so the first `brk(0)` returns `heap_start`:
the last conjunct instantiates the first at that initial state. -/
theorem C8_brk_semantics :
    (∀ heapEnd currentBrk, brkStep heapEnd currentBrk 0 = (currentBrk, currentBrk)) ∧
    (∀ heapEnd currentBrk newBrk, newBrk ≠ 0 → heapEnd < newBrk →
      brkStep heapEnd currentBrk newBrk = (currentBrk, currentBrk)) ∧
    (∀ heapEnd currentBrk newBrk, newBrk ≠ 0 → newBrk ≤ heapEnd →
      brkStep heapEnd currentBrk newBrk = (newBrk, newBrk)) ∧
    (∀ heapStart heapEnd, brkStep heapEnd heapStart 0 = (heapStart, heapStart)) := by
  refine ⟨?_, ?_, ?_, ?_⟩ <;> intros <;> simp_all [brkStep]

/-- C8, witnessed with `heap_end = 200`, `current_brk = 100`. -/
theorem C8_brk_witness :
    brkStep 200 100 0 = (100, 100) ∧
    brkStep 200 100 300 = (100, 100) ∧
    brkStep 200 100 150 = (150, 150) :=
  ⟨C8_brk_semantics.1 200 100,
   C8_brk_semantics.2.1 200 100 300 (by decide) (by decide),
   C8_brk_semantics.2.2.1 200 100 150 (by decide) (by decide)⟩

/-- C9: every register field produced by the six decoders is `< 32`,
and for such an index the register file accessors are safe: for the
31-element file, a nonzero index accesses slot `r - 1 < 31` (no
underflow: the `- 1` only happens under the `r ≠ 0` guard) and a write
preserves the file's length. -/
theorem C9_decoded_reg_fields_in_bounds :
    (∀ instr,
      (UType.parse instr).rd < 32 ∧
      (JType.parse instr).rd < 32 ∧
      (IType.parse instr).rs1 < 32 ∧ (IType.parse instr).rd < 32 ∧
      (BType.parse instr).rs1 < 32 ∧ (BType.parse instr).rs2 < 32 ∧
      (SType.parse instr).rs1 < 32 ∧ (SType.parse instr).rs2 < 32 ∧
      (RType.parse instr).rs1 < 32 ∧ (RType.parse instr).rs2 < 32 ∧
      (RType.parse instr).rd < 32) ∧
    (∀ (regs : List Nat), regs.length = 31 → ∀ r, r < 32 →
      (r ≠ 0 → r - 1 < regs.length) ∧
      ∀ v, (write_reg regs r v).length = 31) := by
  constructor
  · intro instr
    refine ⟨?_, ?_, ?_, ?_, ?_, ?_, ?_, ?_, ?_, ?_, ?_⟩ <;>
      first
        | exact field_lt instr 0xFFF 7 32 (by decide)
        | exact field_lt instr 0xFFFFF 15 32 (by decide)
        | exact field_lt instr 0x1FFFFFF 20 32 (by decide)
  · intro regs hlen r hr
    constructor
    · omega
    · intro v
      simp [write_reg]
      split <;> simp [hlen]

/-- C9, witnessed at the `add x1, x2, x3` word and a zeroed register
file. -/
theorem C9_witness :
    (RType.parse 0x003100B3).rd < 32 ∧
    (31 ≠ 0 → 31 - 1 < (List.replicate 31 (0 : Nat)).length) :=
  ⟨((C9_decoded_reg_fields_in_bounds.1 0x003100B3).2.2.2.2.2.2.2.2.2.2),
   ((C9_decoded_reg_fields_in_bounds.2 (List.replicate 31 0) (by simp) 31 (by decide)).1)⟩

/-- `check_permission` can only fail with `BadPermissions`. -/
theorem check_permission_go_no_oob (perms : List Nat) (required s e : Nat) :
    ∀ n i a b, Memory.check_permission_go perms required s e i n ≠ .error (.outOfBounds a b) := by
  intro n
  induction n with
  | zero => intro i a b; simp [Memory.check_permission_go]
  | succ k ih =>
    intro i a b
    simp only [Memory.check_permission_go]
    split
    · simp
    · exact ih (i + 1) a b

/-- C3 counterexample: the claim says the bounds check fails iff some
addressed byte of the half-open range lies outside `[0,N)`, so the
single byte `N-1` (range `N-1..N`) is accepted.  For `N = 1` the code
rejects the range `0..1` as `OutOfBounds` (its test is
`range.end >= len`), although its only byte, 0, is in bounds; `read`
of that byte fails the same way. -/
theorem C3_bounds_counterexample :
    Memory.check_bounds ⟨[0], [1], []⟩ 0 1 = .error (.outOfBounds 0 1) ∧
    Memory.read ⟨[0], [1], []⟩ 0 1 PERM_READ = .error (.outOfBounds 0 1) ∧
    (∀ x, x < 1 → x < ([0] : List Nat).length) := by
  refine ⟨rfl, rfl, by decide⟩

/-- C3 amended: `check_bounds` succeeds iff BOTH endpoints `start` and
`end` are `< N` (so an access whose half-open range ends exactly at
`N`, such as the single byte `N-1`, IS rejected as `OutOfBounds`
although all its bytes are in `[0,N)`); `read` and `write` report
`OutOfBounds` exactly under that endpoint condition. -/
theorem C3_bounds_amended (m : Memory) (s e required : Nat) :
    (m.check_bounds s e = .ok () ↔ s < m.mem.length ∧ e < m.mem.length) ∧
    (m.read s e required = .error (.outOfBounds s e) ↔
      (m.mem.length ≤ s ∨ m.mem.length ≤ e)) ∧
    (∀ data : List Nat,
      m.write s required data = .error (.outOfBounds s (s + data.length)) ↔
        (m.mem.length ≤ s ∨ m.mem.length ≤ s + data.length)) := by
  refine ⟨?_, ?_, ?_⟩
  · by_cases hb : m.mem.length ≤ s ∨ m.mem.length ≤ e <;>
      simp [Memory.check_bounds, hb] <;> omega
  · by_cases hb : m.mem.length ≤ s ∨ m.mem.length ≤ e
    · simp [Memory.read, Memory.check_bounds, hb]
    · simp only [Memory.read, Memory.check_bounds, hb, if_false]
      cases hcp : (if required ≠ 0 then m.check_permission s e required else .ok ()) with
      | error er =>
        cases er with
        | outOfBounds a b =>
          exfalso
          by_cases hr : required ≠ 0 <;> simp [hr] at hcp
          exact check_permission_go_no_oob m.perms required s e (e - s) s a b hcp
        | badPermissions a b c d => simp [hb]
        | outOfMemory er => simp [hb]
      | ok u => simp [hb]
  · intro data
    by_cases hb : m.mem.length ≤ s ∨ m.mem.length ≤ s + data.length
    · simp [Memory.write, Memory.check_bounds, hb]
    · simp only [Memory.write, Memory.check_bounds, hb, if_false]
      cases hcp : (if required ≠ 0 then m.check_permission s (s + data.length) required else .ok ()) with
      | error er =>
        cases er with
        | outOfBounds a b =>
          exfalso
          by_cases hr : required ≠ 0 <;> simp [hr] at hcp
          exact check_permission_go_no_oob m.perms required s (s + data.length)
            (s + data.length - s) s a b hcp
        | badPermissions a b c d => simp [hb]
        | outOfMemory er => simp [hb]
      | ok u => simp [hb]

/-- `copy_bytes` preserves the buffer length. -/
theorem copy_bytes_length (data : List Nat) :
    ∀ mem i, (Memory.copy_bytes mem i data).length = mem.length := by
  induction data with
  | nil => intro mem i; simp [Memory.copy_bytes]
  | cons b bs ih => intro mem i; simp [Memory.copy_bytes, ih]

/-- `copy_bytes` leaves bytes outside the target range unchanged. -/
theorem copy_bytes_getD_outside (data : List Nat) :
    ∀ mem i j, (j < i ∨ i + data.length ≤ j) →
      (Memory.copy_bytes mem i data).getD j 0 = mem.getD j 0 := by
  induction data with
  | nil => intro mem i j _; simp [Memory.copy_bytes]
  | cons b bs ih =>
    intro mem i j hj
    simp only [Memory.copy_bytes]
    rw [ih _ _ _ (by simp at hj ⊢; omega)]
    have hne : i ≠ j := by simp at hj; omega
    simp [List.getD, List.getElem?_set_ne hne]

/-- `copy_bytes` puts the data bytes at their target positions. -/
theorem copy_bytes_getD_inside (data : List Nat) :
    ∀ mem i j, j < data.length → i + j < mem.length →
      (Memory.copy_bytes mem i data).getD (i + j) 0 = data.getD j 0 := by
  induction data with
  | nil => intro mem i j hj _; simp at hj
  | cons b bs ih =>
    intro mem i j hj hlen
    simp only [Memory.copy_bytes]
    cases j with
    | zero =>
      rw [copy_bytes_getD_outside bs _ _ _ (Or.inl (by omega))]
      have hlen' : i < mem.length := by omega
      simp [List.getD, List.getElem?_set_self hlen']
    | succ j' =>
      have he : i + (j' + 1) = (i + 1) + j' := by omega
      rw [he, ih _ _ _ (by simpa using hj) (by simp; omega)]
      simp

/-- `raw_fix` preserves the permission buffer length. -/
theorem raw_fix_length : ∀ (n : Nat) (perms : List Nat) (i : Nat),
    (Memory.raw_fix perms i n).length = perms.length := by
  intro n
  induction n with
  | zero => intro perms i; simp [Memory.raw_fix]
  | succ k ih =>
    intro perms i
    simp only [Memory.raw_fix]
    rw [ih]
    split <;> simp

/-- `raw_fix` leaves permission bytes outside the range unchanged. -/
theorem raw_fix_getD_outside : ∀ (n : Nat) (perms : List Nat) (i j : Nat),
    (j < i ∨ i + n ≤ j) → (Memory.raw_fix perms i n).getD j 0 = perms.getD j 0 := by
  intro n
  induction n with
  | zero => intro perms i j _; simp [Memory.raw_fix]
  | succ k ih =>
    intro perms i j hj
    simp only [Memory.raw_fix]
    rw [ih _ _ _ (by omega)]
    have hne : i ≠ j := by omega
    split <;> simp [List.getD, List.getElem?_set_ne hne]

/-- `raw_fix` applies the RAW→R transition to each byte of the range. -/
theorem raw_fix_getD_inside : ∀ (n : Nat) (perms : List Nat) (i j : Nat),
    j < n → i + j < perms.length →
    (Memory.raw_fix perms i n).getD (i + j) 0 =
      (if perms.getD (i + j) 0 &&& PERM_RAW ≠ 0
       then (perms.getD (i + j) 0 &&& 0xF7) ||| PERM_READ
       else perms.getD (i + j) 0) := by
  intro n
  induction n with
  | zero => intro perms i j hj _; omega
  | succ k ih =>
    intro perms i j hj hlen
    simp only [Memory.raw_fix]
    cases j with
    | zero =>
      rw [raw_fix_getD_outside k _ _ _ (Or.inl (by omega))]
      simp only [Nat.add_zero] at hlen ⊢
      split
      · simp [List.getD, List.getElem?_set_self hlen]
      · rfl
    | succ j' =>
      have he : i + (j' + 1) = (i + 1) + j' := by omega
      have hset : ∀ (v : Nat), (perms.set i v).getD ((i + 1) + j') 0 = perms.getD ((i + 1) + j') 0 := by
        intro v
        have hne : i ≠ (i + 1) + j' := by omega
        simp [List.getD, List.getElem?_set_ne hne]
      rw [he]
      split
      · rw [ih _ _ _ (by omega) (by simp; omega), hset]
      · rw [ih _ _ _ (by omega) (by omega)]

/-- Inversion of a successful `Memory::write`: both endpoints passed the
bounds check and the result is the RAW-fixed permissions plus the copied
bytes. -/
theorem write_ok_inv (m : Memory) (addr required : Nat) (data : List Nat) (m' : Memory)
    (h : m.write addr required data = .ok m') :
    addr < m.mem.length ∧ addr + data.length < m.mem.length ∧
    m'.mem = Memory.copy_bytes m.mem addr data ∧
    m'.perms = Memory.raw_fix m.perms addr data.length ∧
    m'.free = m.free := by
  by_cases hb : m.mem.length ≤ addr ∨ m.mem.length ≤ addr + data.length
  · simp [Memory.write, Memory.check_bounds, hb] at h
  · simp only [Memory.write, Memory.check_bounds, hb, if_false] at h
    cases hcp : (if required ≠ 0 then m.check_permission addr (addr + data.length) required
        else .ok ()) with
    | error er => rw [hcp] at h; simp at h
    | ok u =>
      rw [hcp] at h
      simp only [Except.ok.injEq] at h
      subst h
      refine ⟨by omega, by omega, rfl, ?_, rfl⟩
      simp

/-- C4: after every successful `Memory::write(addr, mask, data)`, every
byte of `[addr, addr+len)` whose permission had `RAW` set now has `RAW`
clear and `R` set; permission bytes of the range without `RAW` are
unchanged; the contents of the range equal `data`; and both contents
and permissions outside the range are untouched. -/
theorem C4_write_post (m : Memory) (addr required : Nat) (data : List Nat) (m' : Memory)
    (hPL : m.perms.length = m.mem.length)
    (h : m.write addr required data = .ok m') :
    (∀ i, addr ≤ i → i < addr + data.length →
      (m.perms.getD i 0 &&& PERM_RAW ≠ 0 →
        m'.perms.getD i 0 &&& PERM_RAW = 0 ∧ m'.perms.getD i 0 &&& PERM_READ ≠ 0) ∧
      (m.perms.getD i 0 &&& PERM_RAW = 0 → m'.perms.getD i 0 = m.perms.getD i 0)) ∧
    (∀ j, j < data.length → m'.mem.getD (addr + j) 0 = data.getD j 0) ∧
    (∀ i, i < addr ∨ addr + data.length ≤ i →
      m'.mem.getD i 0 = m.mem.getD i 0 ∧ m'.perms.getD i 0 = m.perms.getD i 0) := by
  obtain ⟨h1, h2, hmem, hperms, _⟩ := write_ok_inv m addr required data m' h
  refine ⟨?_, ?_, ?_⟩
  · intro i hi1 hi2
    have hj : i = addr + (i - addr) := by omega
    have hlt : i - addr < data.length := by omega
    have hplen : addr + (i - addr) < m.perms.length := by omega
    rw [hperms, hj, raw_fix_getD_inside data.length m.perms addr (i - addr) hlt hplen]
    rw [← hj]
    constructor
    · intro hraw
      rw [if_pos hraw]
      constructor
      · rw [Nat.and_distrib_right, Nat.and_assoc]
        have e1 : (0xF7 &&& PERM_RAW : Nat) = 0 := by decide
        have e2 : (1 &&& PERM_RAW : Nat) = 0 := by decide
        simp [PERM_READ, e1, e2]
      · intro hc
        have hb := congrArg (fun x => x.testBit 0) hc
        simp [PERM_READ, Nat.testBit_land, Nat.testBit_lor] at hb
    · intro hnoraw
      rw [if_neg (not_not_intro hnoraw)]
  · intro j hj
    rw [hmem, copy_bytes_getD_inside data m.mem addr j hj (by omega)]
  · intro i hi
    constructor
    · rw [hmem, copy_bytes_getD_outside data m.mem addr i (by omega)]
    · rw [hperms, raw_fix_getD_outside data.length m.perms addr i (by omega)]

/-- C4, witnessed on a 4-byte memory with permissions `[8,8,2,8]`,
writing `[7,9]` at address 1. -/
theorem C4_write_witness :
    (Memory.mk [0, 7, 9, 0] [8, 1, 2, 8] []).mem.getD (1 + 0) 0 = ([7, 9] : List Nat).getD 0 0 :=
  (C4_write_post ⟨[0, 0, 0, 0], [8, 8, 2, 8], []⟩ 1 0 [7, 9]
    ⟨[0, 7, 9, 0], [8, 1, 2, 8], []⟩ rfl rfl).2.1 0 (by decide)

/-- A successful `remove` found an interval containing the removed range. -/
theorem removeGo_found (s e : Nat) : ∀ (l l' : List (Nat × Nat)),
    RangeSet.removeGo s e l = .ok l' → ∃ q ∈ l, q.1 ≤ s ∧ s < q.2 ∧ e ≤ q.2 := by
  intro l
  induction l with
  | nil => intro l' h; simp [RangeSet.removeGo] at h
  | cons r rest ih =>
    intro l' h
    by_cases hp : r.1 ≤ s ∧ s < r.2 ∧ e ≤ r.2
    · exact ⟨r, by simp, hp⟩
    · simp only [RangeSet.removeGo, if_neg hp] at h
      cases hrec : RangeSet.removeGo s e rest with
      | ok rest' =>
        obtain ⟨q, hq, hqs⟩ := ih rest' hrec
        exact ⟨q, by simp [hq], hqs⟩
      | error er => rw [hrec] at h; simp at h

/-- Every interval stored after a successful `remove` is contained in an
interval stored before it. -/
theorem removeGo_sub (s e : Nat) (hs : s ≤ e) : ∀ (l l' : List (Nat × Nat)),
    RangeSet.removeGo s e l = .ok l' →
    ∀ q ∈ l', ∃ p ∈ l, p.1 ≤ q.1 ∧ q.2 ≤ p.2 := by
  intro l
  induction l with
  | nil => intro l' h; simp [RangeSet.removeGo] at h
  | cons r rest ih =>
    intro l' h q hq
    by_cases hp : r.1 ≤ s ∧ s < r.2 ∧ e ≤ r.2
    · simp only [RangeSet.removeGo, if_pos hp] at h
      by_cases h1 : s = r.1 ∧ e = r.2
      · rw [if_pos h1] at h
        simp only [Except.ok.injEq] at h
        subst h
        exact ⟨q, List.mem_cons_of_mem r hq, le_refl _, le_refl _⟩
      · rw [if_neg h1] at h
        by_cases h2 : s = r.1
        · rw [if_pos h2] at h
          simp only [Except.ok.injEq] at h
          subst h
          rw [List.mem_cons] at hq
          rcases hq with rfl | hq
          · exact ⟨r, List.mem_cons_self r rest, by omega, by omega⟩
          · exact ⟨q, List.mem_cons_of_mem r hq, le_refl _, le_refl _⟩
        · rw [if_neg h2] at h
          by_cases h3 : e = r.2
          · rw [if_pos h3] at h
            simp only [Except.ok.injEq] at h
            subst h
            rw [List.mem_cons] at hq
            rcases hq with rfl | hq
            · exact ⟨r, List.mem_cons_self r rest, by omega, by omega⟩
            · exact ⟨q, List.mem_cons_of_mem r hq, le_refl _, le_refl _⟩
          · rw [if_neg h3] at h
            simp only [Except.ok.injEq] at h
            subst h
            rw [List.mem_cons, List.mem_cons] at hq
            rcases hq with rfl | rfl | hq
            · exact ⟨r, List.mem_cons_self r rest, by omega, by omega⟩
            · exact ⟨r, List.mem_cons_self r rest, by omega, by omega⟩
            · exact ⟨q, List.mem_cons_of_mem r hq, le_refl _, le_refl _⟩
    · simp only [RangeSet.removeGo, if_neg hp] at h
      cases hrec : RangeSet.removeGo s e rest with
      | ok rest' =>
        rw [hrec] at h
        simp only [Except.ok.injEq] at h
        subst h
        rw [List.mem_cons] at hq
        rcases hq with rfl | hq
        · exact ⟨q, List.mem_cons_self q rest, le_refl _, le_refl _⟩
        · obtain ⟨p, hp', hps⟩ := ih rest' hrec q hq
          exact ⟨p, List.mem_cons_of_mem r hp', hps⟩
      | error er => rw [hrec] at h; simp at h

/-- `remove` preserves well-formedness on success (`s ≤ e`). -/
theorem removeGo_wf (s e : Nat) (hs : s ≤ e) : ∀ (l l' : List (Nat × Nat)),
    wfRS l → RangeSet.removeGo s e l = .ok l' → wfRS l' := by
  intro l
  induction l with
  | nil => intro l' _ h; simp [RangeSet.removeGo] at h
  | cons r rest ih =>
    intro l' hwf h
    obtain ⟨hpw, hlt⟩ := hwf
    rw [List.pairwise_cons] at hpw
    obtain ⟨hhead, htail⟩ := hpw
    have hrlt : r.1 < r.2 := hlt r (List.mem_cons_self r rest)
    have htlt : ∀ q ∈ rest, q.1 < q.2 := fun q hq => hlt q (List.mem_cons_of_mem r hq)
    by_cases hp : r.1 ≤ s ∧ s < r.2 ∧ e ≤ r.2
    · simp only [RangeSet.removeGo, if_pos hp] at h
      by_cases h1 : s = r.1 ∧ e = r.2
      · rw [if_pos h1] at h
        simp only [Except.ok.injEq] at h
        subst h
        exact ⟨htail, htlt⟩
      · rw [if_neg h1] at h
        by_cases h2 : s = r.1
        · rw [if_pos h2] at h
          simp only [Except.ok.injEq] at h
          subst h
          refine ⟨List.pairwise_cons.mpr ⟨fun q hq => ?_, htail⟩, ?_⟩
          · exact hhead q hq
          · intro q hq
            rw [List.mem_cons] at hq
            rcases hq with rfl | hq
            · simp only
              omega
            · exact htlt q hq
        · rw [if_neg h2] at h
          by_cases h3 : e = r.2
          · rw [if_pos h3] at h
            simp only [Except.ok.injEq] at h
            subst h
            refine ⟨List.pairwise_cons.mpr ⟨fun q hq => ?_, htail⟩, ?_⟩
            · have := hhead q hq
              simp only
              omega
            · intro q hq
              rw [List.mem_cons] at hq
              rcases hq with rfl | hq
              · simp only
                omega
              · exact htlt q hq
          · rw [if_neg h3] at h
            simp only [Except.ok.injEq] at h
            subst h
            refine ⟨?_, ?_⟩
            · rw [List.pairwise_cons]
              refine ⟨fun q hq => ?_, ?_⟩
              · rw [List.mem_cons] at hq
                rcases hq with rfl | hq
                · simp only
                  omega
                · have := hhead q hq
                  simp only
                  omega
              · rw [List.pairwise_cons]
                exact ⟨fun q hq => hhead q hq, htail⟩
            · intro q hq
              rw [List.mem_cons, List.mem_cons] at hq
              rcases hq with rfl | rfl | hq
              · simp only
                omega
              · simp only
                omega
              · exact htlt q hq
    · simp only [RangeSet.removeGo, if_neg hp] at h
      cases hrec : RangeSet.removeGo s e rest with
      | ok rest' =>
        rw [hrec] at h
        simp only [Except.ok.injEq] at h
        subst h
        have hwfr : wfRS rest' := ih rest' ⟨htail, htlt⟩ hrec
        refine ⟨List.pairwise_cons.mpr ⟨fun q hq => ?_, hwfr.1⟩, ?_⟩
        · obtain ⟨p, hpmem, hp1, _⟩ := removeGo_sub s e hs rest rest' hrec q hq
          have := hhead p hpmem
          omega
        · intro q hq
          rw [List.mem_cons] at hq
          rcases hq with rfl | hq
          · exact hrlt
          · exact hwfr.2 q hq
      | error er => rw [hrec] at h; simp at h

/-- On a well-formed set, a successful `remove s e` removes exactly the
points of `[s, e)` from the covered set. -/
theorem removeGo_mem (s e : Nat) (hs : s ≤ e) : ∀ (l l' : List (Nat × Nat)),
    wfRS l → RangeSet.removeGo s e l = .ok l' →
    ∀ x, inSet l' x ↔ (inSet l x ∧ ¬(s ≤ x ∧ x < e)) := by
  intro l
  induction l with
  | nil => intro l' _ h; simp [RangeSet.removeGo] at h
  | cons r rest ih =>
    intro l' hwf h x
    obtain ⟨hpw, hlt⟩ := hwf
    rw [List.pairwise_cons] at hpw
    obtain ⟨hhead, htail⟩ := hpw
    have hrlt : r.1 < r.2 := hlt r (List.mem_cons_self r rest)
    have htlt : ∀ q ∈ rest, q.1 < q.2 := fun q hq => hlt q (List.mem_cons_of_mem r hq)
    by_cases hp : r.1 ≤ s ∧ s < r.2 ∧ e ≤ r.2
    · -- the found interval is r; any x covered by rest is ≥ r.2 ≥ e
      have hrest : ∀ x, inSet rest x → e ≤ x := by
        intro y ⟨q, hq, hq1, _⟩
        have := hhead q hq
        omega
      simp only [RangeSet.removeGo, if_pos hp] at h
      by_cases h1 : s = r.1 ∧ e = r.2
      · rw [if_pos h1] at h
        simp only [Except.ok.injEq] at h
        subst h
        constructor
        · intro ⟨q, hq, hxq⟩
          have := hrest x ⟨q, hq, hxq⟩
          exact ⟨⟨q, List.mem_cons_of_mem r hq, hxq⟩, by omega⟩
        · intro ⟨⟨q, hq, hxq⟩, hnx⟩
          rw [List.mem_cons] at hq
          rcases hq with rfl | hq
          · omega
          · exact ⟨q, hq, hxq⟩
      · rw [if_neg h1] at h
        by_cases h2 : s = r.1
        · rw [if_pos h2] at h
          simp only [Except.ok.injEq] at h
          subst h
          constructor
          · intro ⟨q, hq, hxq⟩
            rw [List.mem_cons] at hq
            rcases hq with rfl | hq
            · simp only at hxq
              exact ⟨⟨r, List.mem_cons_self r rest, by omega⟩, by omega⟩
            · have := hrest x ⟨q, hq, hxq⟩
              exact ⟨⟨q, List.mem_cons_of_mem r hq, hxq⟩, by omega⟩
          · intro ⟨⟨q, hq, hxq⟩, hnx⟩
            rw [List.mem_cons] at hq
            rcases hq with rfl | hq
            · exact ⟨(e, q.2), List.mem_cons_self _ _, by simp only; omega⟩
            · exact ⟨q, List.mem_cons_of_mem _ hq, hxq⟩
        · rw [if_neg h2] at h
          by_cases h3 : e = r.2
          · rw [if_pos h3] at h
            simp only [Except.ok.injEq] at h
            subst h
            constructor
            · intro ⟨q, hq, hxq⟩
              rw [List.mem_cons] at hq
              rcases hq with rfl | hq
              · simp only at hxq
                exact ⟨⟨r, List.mem_cons_self r rest, by omega⟩, by omega⟩
              · have := hrest x ⟨q, hq, hxq⟩
                exact ⟨⟨q, List.mem_cons_of_mem r hq, hxq⟩, by omega⟩
            · intro ⟨⟨q, hq, hxq⟩, hnx⟩
              rw [List.mem_cons] at hq
              rcases hq with rfl | hq
              · exact ⟨(q.1, s), List.mem_cons_self _ _, by simp only; omega⟩
              · exact ⟨q, List.mem_cons_of_mem _ hq, hxq⟩
          · rw [if_neg h3] at h
            simp only [Except.ok.injEq] at h
            subst h
            constructor
            · intro ⟨q, hq, hxq⟩
              rw [List.mem_cons, List.mem_cons] at hq
              rcases hq with rfl | rfl | hq
              · simp only at hxq
                exact ⟨⟨r, List.mem_cons_self r rest, by omega⟩, by omega⟩
              · simp only at hxq
                exact ⟨⟨r, List.mem_cons_self r rest, by omega⟩, by omega⟩
              · have := hrest x ⟨q, hq, hxq⟩
                exact ⟨⟨q, List.mem_cons_of_mem r hq, hxq⟩, by omega⟩
            · intro ⟨⟨q, hq, hxq⟩, hnx⟩
              rw [List.mem_cons] at hq
              rcases hq with rfl | hq
              · by_cases hx : x < s
                · exact ⟨(q.1, s), List.mem_cons_self _ _, by simp only; omega⟩
                · refine ⟨(e, q.2), List.mem_cons_of_mem _ (List.mem_cons_self _ _), by simp only; omega⟩
              · exact ⟨q, List.mem_cons_of_mem _ (List.mem_cons_of_mem _ hq), hxq⟩
    · -- r is skipped; on success the found interval is in rest, past r
      simp only [RangeSet.removeGo, if_neg hp] at h
      cases hrec : RangeSet.removeGo s e rest with
      | ok rest' =>
        rw [hrec] at h
        simp only [Except.ok.injEq] at h
        subst h
        obtain ⟨qf, hqf, hqf1, hqf2, hqf3⟩ := removeGo_found s e rest rest' hrec
        have hrs : r.2 ≤ s := by
          have := hhead qf hqf
          omega
        have hih := ih rest' ⟨htail, htlt⟩ hrec
        constructor
        · intro ⟨q, hq, hxq⟩
          rw [List.mem_cons] at hq
          rcases hq with rfl | hq
          · exact ⟨⟨q, List.mem_cons_self q rest, hxq⟩, by omega⟩
          · obtain ⟨hin, hnx⟩ := (hih x).mp ⟨q, hq, hxq⟩
            obtain ⟨p, hpm, hxp⟩ := hin
            exact ⟨⟨p, List.mem_cons_of_mem r hpm, hxp⟩, hnx⟩
        · intro ⟨⟨q, hq, hxq⟩, hnx⟩
          rw [List.mem_cons] at hq
          rcases hq with rfl | hq
          · exact ⟨q, List.mem_cons_self _ _, hxq⟩
          · obtain ⟨p, hpm, hxp⟩ := (hih x).mpr ⟨⟨q, hq, hxq⟩, hnx⟩
            exact ⟨p, List.mem_cons_of_mem r hpm, hxp⟩
      | error er => rw [hrec] at h; simp at h

/-- `find?` returns the head of the suffix when the prefix fails the
predicate and the head satisfies it. -/
theorem find?_first_of_prefix {α : Type} (p : α → Bool) :
    ∀ (pre : List α) (r : α) (post : List α),
      (∀ q ∈ pre, ¬ p q = true) → p r = true →
      (pre ++ r :: post).find? p = some r := by
  intro pre
  induction pre with
  | nil => intro r post _ hr; simp [List.find?_cons_of_pos, hr]
  | cons a as ih =>
    intro r post hpre hr
    have ha : ¬ p a = true := hpre a (List.mem_cons_self a as)
    simp only [List.cons_append]
    rw [List.find?_cons_of_neg _ (by simpa using ha)]
    exact ih r post (fun q hq => hpre q (List.mem_cons_of_mem a hq)) hr

/-- `remove` walks past a prefix of intervals that fail its search
predicate. -/
theorem removeGo_append_miss (s e : Nat) :
    ∀ (pre l : List (Nat × Nat)),
      (∀ q ∈ pre, ¬(q.1 ≤ s ∧ s < q.2 ∧ e ≤ q.2)) →
      RangeSet.removeGo s e (pre ++ l) =
        match RangeSet.removeGo s e l with
        | .ok l' => .ok (pre ++ l')
        | .error er => .error er := by
  intro pre
  induction pre with
  | nil =>
    intro l _
    simp only [List.nil_append]
    cases RangeSet.removeGo s e l <;> simp
  | cons a as ih =>
    intro l hmiss
    have ha : ¬(a.1 ≤ s ∧ s < a.2 ∧ e ≤ a.2) := hmiss a (List.mem_cons_self a as)
    simp only [List.cons_append, RangeSet.removeGo, if_neg ha, List.append_eq]
    rw [ih l (fun q hq => hmiss q (List.mem_cons_of_mem a hq))]
    cases RangeSet.removeGo s e l <;> simp

/-- `remove` succeeds when the head interval contains the removed range
starting at its left end. -/
theorem removeGo_head_hit (s e : Nat) (r : Nat × Nat) (post : List (Nat × Nat))
    (h1 : r.1 = s) (h2 : s < r.2) (h3 : e ≤ r.2) :
    ∃ l', RangeSet.removeGo s e (r :: post) = .ok l' := by
  have hp : r.1 ≤ s ∧ s < r.2 ∧ e ≤ r.2 := ⟨le_of_eq h1, h2, h3⟩
  by_cases ha : s = r.1 ∧ e = r.2
  · exact ⟨post, by simp only [RangeSet.removeGo, if_pos hp, if_pos ha]⟩
  · by_cases hb : s = r.1
    · exact ⟨(e, r.2) :: post, by simp only [RangeSet.removeGo, if_pos hp, if_neg ha, if_pos hb]⟩
    · by_cases hc : e = r.2
      · exact ⟨(r.1, s) :: post,
          by simp only [RangeSet.removeGo, if_pos hp, if_neg ha, if_neg hb, if_pos hc]⟩
      · exact ⟨(r.1, s) :: (e, r.2) :: post,
          by simp only [RangeSet.removeGo, if_pos hp, if_neg ha, if_neg hb, if_neg hc]⟩

/-- C6: on a well-formed set, `remove_first_fit size` fails with `NoFit`
leaving the set unchanged when no stored interval has length ≥ `size`
(the Rust code returns before mutating); otherwise, with `r` the first
interval in storage order of length ≥ `size`, it returns
`(r.start, r.start + size)` and removes exactly `[r.start,
r.start+size)` from the covered set.  In particular after `new a b`,
`remove_first_fit k` with `k ≤ b - a` returns `(a, a + k)`. -/
theorem C6_remove_first_fit (rs : List (Nat × Nat)) (hwf : wfRS rs) (size : Nat) :
    ((∀ q ∈ rs, q.2 - q.1 < size) → RangeSet.remove_first_fit rs size = .error .noFit) ∧
    (∀ pre r post, rs = pre ++ r :: post →
      (∀ q ∈ pre, q.2 - q.1 < size) → size ≤ r.2 - r.1 →
      ∃ rs', RangeSet.remove_first_fit rs size = .ok ((r.1, r.1 + size), rs') ∧
        ∀ x, inSet rs' x ↔ (inSet rs x ∧ ¬(r.1 ≤ x ∧ x < r.1 + size))) ∧
    (∀ a b k, a < b → k ≤ b - a →
      ∃ rs', RangeSet.remove_first_fit (RangeSet.new a b) k = .ok ((a, a + k), rs')) := by
  refine ⟨?_, ?_, ?_⟩
  · intro hall
    have hnone : rs.find? (fun r => decide (size ≤ r.2 - r.1)) = none := by
      rw [List.find?_eq_none]
      intro q hq
      simp only [decide_eq_true_eq]
      have := hall q hq
      omega
    simp [RangeSet.remove_first_fit, hnone]
  · intro pre r post hdec hpre hr
    subst hdec
    have hfind : (pre ++ r :: post).find? (fun q => decide (size ≤ q.2 - q.1)) = some r := by
      apply find?_first_of_prefix
      · intro q hq
        simp only [decide_eq_true_eq]
        have := hpre q hq
        omega
      · simp only [decide_eq_true_eq]
        exact hr
    have hrlt : r.1 < r.2 := hwf.2 r (by simp)
    have hsum : r.1 + size ≤ r.2 := by omega
    have hpremiss : ∀ q ∈ pre, ¬(q.1 ≤ r.1 ∧ r.1 < q.2 ∧ r.1 + size ≤ q.2) := by
      intro q hq
      have hqr : q.2 ≤ r.1 := by
        have hpw := hwf.1
        rw [List.pairwise_append] at hpw
        exact hpw.2.2 q hq r (by simp)
      omega
    obtain ⟨l2, hl2⟩ := removeGo_head_hit r.1 (r.1 + size) r post rfl hrlt hsum
    have hrem : RangeSet.removeGo r.1 (r.1 + size) (pre ++ r :: post) = .ok (pre ++ l2) := by
      rw [removeGo_append_miss r.1 (r.1 + size) pre (r :: post) hpremiss, hl2]
    refine ⟨pre ++ l2, ?_, ?_⟩
    · simp [RangeSet.remove_first_fit, hfind, RangeSet.remove, hrem]
    · exact removeGo_mem r.1 (r.1 + size) (by omega) (pre ++ r :: post) (pre ++ l2) hwf hrem
  · intro a b k hab hk
    have hfind : ([(a, b)] : List (Nat × Nat)).find? (fun q => decide (k ≤ q.2 - q.1)) =
        some (a, b) := by
      rw [List.find?_cons_of_pos]
      simp only [decide_eq_true_eq]
      exact hk
    obtain ⟨l2, hl2⟩ := removeGo_head_hit a (a + k) (a, b) [] rfl (by omega) (by omega)
    refine ⟨l2, ?_⟩
    simp only [RangeSet.remove_first_fit, RangeSet.new, RangeSet.remove, hfind]
    rw [hl2]

/-- C6, witnessed on `new 0 1024` with `size = 512`. -/
theorem C6_witness :
    ∃ rs', RangeSet.remove_first_fit (RangeSet.new 0 1024) 512 = .ok ((0, 0 + 512), rs') :=
  (C6_remove_first_fit (RangeSet.new 0 1024) (by decide) 512).2.2 0 1024 512
    (by decide) (by decide)

/-- C10: the well-formedness invariant (nonempty intervals, pairwise
disjoint, strictly ascending) holds after `new s e` with `s < e` and is
preserved by `remove s e` with `s ≤ e` and by `remove_first_fit`,
whether they succeed or fail (on failure the Rust methods return before
mutating, so the set is the original one). -/
theorem C10_wf_preserved :
    (∀ s e, s < e → wfRS (RangeSet.new s e)) ∧
    (∀ rs s e, wfRS rs → s ≤ e →
      wfRS (match RangeSet.remove rs s e with | .ok rs' => rs' | .error _ => rs)) ∧
    (∀ rs size, wfRS rs →
      wfRS (match RangeSet.remove_first_fit rs size with | .ok p => p.2 | .error _ => rs)) := by
  refine ⟨?_, ?_, ?_⟩
  · intro s e hse
    constructor
    · simp [RangeSet.new]
    · intro r hr
      simp only [RangeSet.new, List.mem_singleton] at hr
      subst hr
      exact hse
  · intro rs s e hwf hse
    cases h : RangeSet.remove rs s e with
    | ok rs' => exact removeGo_wf s e hse rs rs' hwf h
    | error er => exact hwf
  · intro rs size hwf
    cases h : RangeSet.remove_first_fit rs size with
    | ok p =>
      simp only [RangeSet.remove_first_fit] at h
      cases hfind : rs.find? (fun r => decide (size ≤ r.2 - r.1)) with
      | none => rw [hfind] at h; simp at h
      | some r =>
        rw [hfind] at h
        dsimp only at h ⊢
        cases hrem : RangeSet.remove rs r.1 (r.1 + size) with
        | ok rs' =>
          rw [hrem] at h
          simp only [Except.ok.injEq] at h
          subst h
          exact removeGo_wf r.1 (r.1 + size) (by omega) rs rs' hwf hrem
        | error er => rw [hrem] at h; simp at h
    | error er => exact hwf

/-- C10, witnessed by removing `[0,512)` from `new 0 1024`. -/
theorem C10_witness :
    wfRS (match RangeSet.remove (RangeSet.new 0 1024) 0 512 with
          | .ok rs' => rs' | .error _ => RangeSet.new 0 1024) :=
  C10_wf_preserved.2.1 (RangeSet.new 0 1024) 0 512 (by decide) (by decide)

/-- A fall-through step keeps whatever register file it was given. -/
theorem regsUnchanged_fallthrough (st : EmuState) (regs : List Nat) (mem : Memory) :
    regsUnchanged (fallthrough st regs mem) regs := by
  unfold fallthrough
  split <;> simp [regsUnchanged]

/-- Writes to `x0` are discarded. -/
theorem write_reg_zero (regs : List Nat) (v : Nat) : write_reg regs 0 v = regs := by
  simp [write_reg]

/-- All decoders extract `rd` by the same shared field formula. -/
theorem UType_rd (instr : Nat) : (UType.parse instr).rd = rdField instr := rfl

theorem JType_rd (instr : Nat) : (JType.parse instr).rd = rdField instr := rfl

theorem IType_rd (instr : Nat) : (IType.parse instr).rd = rdField instr := rfl

theorem RType_rd (instr : Nat) : (RType.parse instr).rd = rdField instr := rfl

/-- Per-arm register preservation when the decoded `rd` field is 0. -/
theorem execLUI_regs (st : EmuState) (instr : Nat) (h : rdField instr = 0) :
    regsUnchanged (execLUI st instr) st.regs := by
  simp only [execLUI, UType_rd, h, write_reg_zero]
  exact regsUnchanged_fallthrough st st.regs st.mem

theorem execAUIPC_regs (st : EmuState) (instr : Nat) (h : rdField instr = 0) :
    regsUnchanged (execAUIPC st instr) st.regs := by
  simp only [execAUIPC, UType_rd, h, write_reg_zero]
  split
  · trivial
  · exact regsUnchanged_fallthrough st st.regs st.mem

theorem execJAL_regs (st : EmuState) (instr : Nat) (h : rdField instr = 0) :
    regsUnchanged (execJAL st instr) st.regs := by
  simp only [execJAL, JType_rd, h, write_reg_zero]
  split
  · trivial
  · rfl

theorem execJALR_regs (st : EmuState) (instr : Nat) (h : rdField instr = 0) :
    regsUnchanged (execJALR st instr) st.regs := by
  simp only [execJALR, IType_rd, h, write_reg_zero]
  split
  · rfl
  · split
    · trivial
    · rfl

theorem execBRANCH_regs (st : EmuState) (instr : Nat) :
    regsUnchanged (execBRANCH st instr) st.regs := by
  simp only [execBRANCH]
  split
  · rfl
  · rfl
  · exact regsUnchanged_fallthrough st st.regs st.mem

theorem execLOAD_regs (st : EmuState) (instr : Nat) (h : rdField instr = 0) :
    regsUnchanged (execLOAD st instr) st.regs := by
  simp only [execLOAD, IType_rd, h, write_reg_zero]
  split
  · rfl
  · rfl
  · exact regsUnchanged_fallthrough st st.regs st.mem

theorem execSTORE_regs (st : EmuState) (instr : Nat) :
    regsUnchanged (execSTORE st instr) st.regs := by
  simp only [execSTORE]
  split
  · trivial
  · split
    · rfl
    · rfl
    · exact regsUnchanged_fallthrough st st.regs _

theorem execOPIMM_regs (st : EmuState) (instr : Nat) (h : rdField instr = 0) :
    regsUnchanged (execOPIMM st instr) st.regs := by
  simp only [execOPIMM, IType_rd, h, write_reg_zero]
  repeat' split
  all_goals first
    | rfl
    | exact regsUnchanged_fallthrough st st.regs st.mem

theorem execOP_regs (st : EmuState) (instr : Nat) (h : rdField instr = 0) :
    regsUnchanged (execOP st instr) st.regs := by
  simp only [execOP, RType_rd, h, write_reg_zero]
  split
  · rfl
  · exact regsUnchanged_fallthrough st st.regs st.mem

theorem execMISCMEM_regs (st : EmuState) (instr : Nat) :
    regsUnchanged (execMISCMEM st instr) st.regs := by
  simp only [execMISCMEM]
  split
  · rfl
  · exact regsUnchanged_fallthrough st st.regs st.mem

theorem execSYSTEM_regs (st : EmuState) (instr : Nat) :
    regsUnchanged (execSYSTEM st instr) st.regs := by
  simp only [execSYSTEM]
  repeat' split
  all_goals rfl

/-- C7: `x0` reads as zero and discards writes, and executing any
instruction whose decoded `rd` field (bits 11:7) is 0 — LUI, AUIPC,
JAL, or any OP/OP-IMM with `rd = x0`, as well as every other opcode —
leaves all 31 stored registers unchanged (`exited` keeps the register
file, and an `aborted` overflow panic tears the process down without
touching it). -/
theorem C7_x0_registers :
    (∀ regs, read_reg regs 0 = 0) ∧
    (∀ regs v, write_reg regs 0 v = regs) ∧
    (∀ (st : EmuState) (instr : Nat), rdField instr = 0 →
      regsUnchanged (executeInstr st instr) st.regs) := by
  refine ⟨fun regs => by simp [read_reg], fun regs v => by simp [write_reg], ?_⟩
  intro st instr h
  show regsUnchanged
    (if st.pc = 0x100ec ∧ read_reg st.regs 12 < read_reg st.regs 10 then .aborted
     else
     if instr &&& 0x7F = 0b0110111 then execLUI st instr
     else if instr &&& 0x7F = 0b0010111 then execAUIPC st instr
     else if instr &&& 0x7F = 0b1101111 then execJAL st instr
     else if instr &&& 0x7F = 0b1100111 then execJALR st instr
     else if instr &&& 0x7F = 0b1100011 then execBRANCH st instr
     else if instr &&& 0x7F = 0b0000011 then execLOAD st instr
     else if instr &&& 0x7F = 0b0100011 then execSTORE st instr
     else if instr &&& 0x7F = 0b0010011 then execOPIMM st instr
     else if instr &&& 0x7F = 0b0110011 then execOP st instr
     else if instr &&& 0x7F = 0b0001111 then execMISCMEM st instr
     else if instr &&& 0x7F = 0b1110011 then execSYSTEM st instr
     else .exited ⟨st.pc, st.regs, st.mem⟩ (.invalidInstruction instr)) st.regs
  by_cases h0 : st.pc = 0x100ec ∧ read_reg st.regs 12 < read_reg st.regs 10
  · rw [if_pos h0]
    trivial
  · rw [if_neg h0]
    by_cases hc0 : instr &&& 0x7F = 0b0110111
    · rw [if_pos hc0]
      exact execLUI_regs st instr h
    · rw [if_neg hc0]
      by_cases hc1 : instr &&& 0x7F = 0b0010111
      · rw [if_pos hc1]
        exact execAUIPC_regs st instr h
      · rw [if_neg hc1]
        by_cases hc2 : instr &&& 0x7F = 0b1101111
        · rw [if_pos hc2]
          exact execJAL_regs st instr h
        · rw [if_neg hc2]
          by_cases hc3 : instr &&& 0x7F = 0b1100111
          · rw [if_pos hc3]
            exact execJALR_regs st instr h
          · rw [if_neg hc3]
            by_cases hc4 : instr &&& 0x7F = 0b1100011
            · rw [if_pos hc4]
              exact execBRANCH_regs st instr
            · rw [if_neg hc4]
              by_cases hc5 : instr &&& 0x7F = 0b0000011
              · rw [if_pos hc5]
                exact execLOAD_regs st instr h
              · rw [if_neg hc5]
                by_cases hc6 : instr &&& 0x7F = 0b0100011
                · rw [if_pos hc6]
                  exact execSTORE_regs st instr
                · rw [if_neg hc6]
                  by_cases hc7 : instr &&& 0x7F = 0b0010011
                  · rw [if_pos hc7]
                    exact execOPIMM_regs st instr h
                  · rw [if_neg hc7]
                    by_cases hc8 : instr &&& 0x7F = 0b0110011
                    · rw [if_pos hc8]
                      exact execOP_regs st instr h
                    · rw [if_neg hc8]
                      by_cases hc9 : instr &&& 0x7F = 0b0001111
                      · rw [if_pos hc9]
                        exact execMISCMEM_regs st instr
                      · rw [if_neg hc9]
                        by_cases hc10 : instr &&& 0x7F = 0b1110011
                        · rw [if_pos hc10]
                          exact execSYSTEM_regs st instr
                        · rw [if_neg hc10]
                          rfl

/-- C7, witnessed by `lui x0, 0` (word 0x37) from a zeroed state. -/
theorem C7_witness :
    regsUnchanged (executeInstr ⟨0, List.replicate 31 0, ⟨[], [], []⟩⟩ 0x37)
      (List.replicate 31 0) :=
  C7_x0_registers.2.2 ⟨0, List.replicate 31 0, ⟨[], [], []⟩⟩ 0x37 (by decide)
